import Mathlib

/-!
Verification development for the puffin in-process command simulation
library.  The definitions below are a shallow embedding of the Go source
(the later, router-based design: FuncExec/FuncCmd with a Mux of
patterns).  Pure Go functions become Lean functions; the stateful
lifecycle methods become explicit state-passing functions on a `FuncCmd`
record; the blocking channel receives inside `Wait` become explicit
parameters carrying the value the receive would produce; the
cancellation watcher goroutine is modelled as a small-step transition
system interleaved with the waiting caller.
-/

namespace Puffin

/-- Go's filepath.Base on a unix path: empty string gives ".", trailing
slashes are stripped, the element after the last slash is returned, and
a string of only slashes gives "/". -/
def filepathBase (p : String) : String :=
  if p = "" then "."
  else
    let cs := (p.toList.reverse.dropWhile (fun c => c = '/')).reverse
    if cs.isEmpty then "/"
    else String.mk ((cs.reverse.takeWhile (fun c => c ≠ '/')).reverse)

/-- The error values the embedded code can produce.  `msg` stands for
errors built with errors.New / fmt.Errorf; `ctxCanceled` is the
context's own error; `noSuchPath` is the exec.Error wrapping an
os.PathError with ENOENT ("no such file"); `notFoundInPath` is the
exec.Error wrapping exec.ErrNotFound ("executable file not found in
$PATH").  Each carries the requested name where the Go value does. -/
inductive Err where
  | msg (s : String)
  | ctxCanceled
  | noSuchPath (name : String)
  | notFoundInPath (name : String)
deriving DecidableEq, Repr

/-- What one of the stdin/stdout/stderr interface fields of a FuncCmd
can hold: nothing (Go nil), a lockableBuffer with its two lock flags
(newLockableBuffer gives both false, newLockableReader has writeLocked,
newLockableWriter has readLocked), or some other caller-supplied
io.Reader/io.Writer that is not a lockableBuffer (tagged so that
"left untouched" is expressible). -/
inductive IOChan where
  | nilChan
  | lockBuf (readLocked writeLocked : Bool)
  | other (tag : Nat)
deriving DecidableEq, Repr

/-- True exactly when the channel holds a lockableBuffer, i.e. when the
Go comma-ok type assertion to *lockableBuffer succeeds. -/
def IOChan.isLockBuf : IOChan → Bool
  | .lockBuf _ _ => true
  | _ => false

/-- The FuncCmd record (func.go, router-based variant).  Go maps become
association lists; the process pointer becomes an optional pid; the
processState pointer becomes a flag recording that the artifact was
assigned; the two buffered channels exitCode and ctxErr are modelled by
presence flags (Start checks them for nil) plus explicit receive values
passed to Wait; ctx is modelled by its presence. -/
structure FuncCmd where
  path : String
  args : List String
  env : Option (List (String × String))
  dir : String
  stdin : IOChan
  stdout : IOChan
  stderr : IOChan
  process : Option Nat
  processState : Bool
  hasCtx : Bool
  hasCtxErrChan : Bool
  hasExitCodeChan : Bool
  err : Option Err
  startErr : Option Err
deriving DecidableEq, Repr

/-- A FuncCmd as produced by FuncExec.Command for a resolved path and
argument vector: channels nil, both hand-off channels allocated, no
context, nothing started. -/
def mkCmd (path : String) (args : List String) : FuncCmd :=
  { path := path, args := args, env := none, dir := ""
    stdin := .nilChan, stdout := .nilChan, stderr := .nilChan
    process := none, processState := false
    hasCtx := false, hasCtxErrChan := true, hasExitCodeChan := true
    err := none, startErr := none }

/-- LockRead on a channel: the Go code does a comma-ok assertion to
*lockableBuffer and calls LockRead only when it succeeds. -/
def lockChanRead : IOChan → IOChan
  | .lockBuf _ w => .lockBuf true w
  | ch => ch

/-- LockWrite on a channel, under the same comma-ok guard. -/
def lockChanWrite : IOChan → IOChan
  | .lockBuf r _ => .lockBuf r true
  | ch => ch

/-- FuncCmd.lock: read-lock stdin, write-lock stdout and stderr, each
only when the channel actually holds a lockableBuffer. -/
def FuncCmd.lock (c : FuncCmd) : FuncCmd :=
  { c with
      stdin := lockChanRead c.stdin
      stdout := lockChanWrite c.stdout
      stderr := lockChanWrite c.stderr }

/-- FuncCmd.Wait.  The two blocking receives are replaced by explicit
parameters: `interrupt` is the value a receive on ctxErr would deliver
(consulted only when a context is attached, exactly as in the source),
and `exitCode` the value a receive on the exitCode channel would
deliver.  Returns the updated command and the error result (none for
success).  That the early-failure branches return a result that does
not depend on `interrupt` or `exitCode` is the embedding of
"fails immediately, without blocking". -/
def FuncCmd.Wait (c : FuncCmd) (interrupt : Option Err) (exitCode : Int) :
    FuncCmd × Option Err :=
  match c.startErr with
  | some e => (c, some e)
  | none =>
    if c.process = none then
      (c, some (Err.msg "exec: not started"))
    else if c.processState then
      (c, some (Err.msg "exec: Wait was already called"))
    else
      let c1 := { c with processState := true }
      if c1.hasCtx then
        match interrupt with
        | some e => (c1, some e)
        | none =>
          if exitCode ≠ 0 then
            (c1, some (Err.msg ("exit status " ++ toString exitCode)))
          else
            (c1, none)
      else
        if exitCode ≠ 0 then
          (c1, some (Err.msg ("exit status " ++ toString exitCode)))
        else
          (c1, none)

/-- A command pattern.  `simple s` is pattern.go's string-based `pat`;
`full cmd args` is pkg/pat's `Pattern{Cmd, Args}` struct. -/
inductive Pattern where
  | simple (p : String)
  | full (cmd : String) (args : List String)
deriving DecidableEq, Repr

/-- Pattern matching against a command.  Both variants compare
filepath.Base of the pattern's command string against the command's
(whole) resolved path unless the pattern string is the wildcard.
The `full` variant additionally requires each pattern argument to occur
somewhere in the invocation arguments after slot 0 (set semantics). -/
def Pattern.Match : Pattern → FuncCmd → Bool
  | .simple p, c => p == "*" || filepathBase p == c.path
  | .full pc pargs, c =>
      (pc == "*" || filepathBase pc == c.path)
        && pargs.all (fun a => (c.args.drop 1).contains a)

/-- The Mux: an ordered list of (pattern, handler) registrations.  The
handler type is abstract; in Go it is CmdFunc = func(*FuncCmd) int. -/
structure Mux (H : Type) where
  matchers : List (Pattern × H)

/-- NewMux: a mux with no configured handlers. -/
def NewMux (H : Type) : Mux H := ⟨[]⟩

/-- Mux.HandleFunc appends a (pattern, handler) registration. -/
def Mux.HandleFunc {H : Type} (m : Mux H) (p : Pattern) (h : H) : Mux H :=
  ⟨m.matchers ++ [(p, h)]⟩

/-- The loop body of Mux.findHandler: first matcher in list order whose
pattern matches the command. -/
def findFirstMatch {H : Type} : List (Pattern × H) → FuncCmd → Option H
  | [], _ => none
  | (p, h) :: rest, c => if p.Match c then some h else findFirstMatch rest c

/-- Mux.findHandler, including the nil-receiver guard (the option is
none exactly when the Go *Mux pointer is nil). -/
def findHandler {H : Type} : Option (Mux H) → FuncCmd → Option H
  | none, _ => none
  | some m, c => findFirstMatch m.matchers c

/-- NewFuncMapMux: builds a mux from a name-keyed map, modelled as a
list of key/handler pairs in the (arbitrary) iteration order the Go
range loop visits them.  A "*"-keyed entry is held back in `addLast`
and appended after the loop. -/
def NewFuncMapMux {H : Type} (funcMap : List (String × H)) : Mux H :=
  let r := funcMap.foldl
    (fun (acc : Mux H × Option H) kv =>
      if kv.1 == "*" then (acc.1, some kv.2)
      else (acc.1.HandleFunc (Pattern.simple kv.1) kv.2, acc.2))
    (NewMux H, none)
  match r.2 with
  | some fn => r.1.HandleFunc (Pattern.simple "*") fn
  | none => r.1

/-- Result of FuncCmd.Start: the updated command, the returned error,
and whether the handler goroutine and the context-watcher goroutine
were launched. -/
structure StartResult where
  cmd : FuncCmd
  ret : Option Err
  handlerLaunched : Bool
  watcherLaunched : Bool
deriving DecidableEq, Repr

/-- FuncCmd.Start.  `mux` is the c.fExec.mux pointer (none = nil),
`ctxDone` tells whether the attached context is already done at call
time (the non-blocking select), and `pid` the value rand.Intn(PidMax)
produced for the process handle. -/
def FuncCmd.Start {H : Type} (c : FuncCmd) (mux : Option (Mux H))
    (ctxDone : Bool) (pid : Nat) : StartResult :=
  let c := if c.path = "" ∧ c.err = none
    then { c with err := some (Err.msg "exec: no command") } else c
  match c.err with
  | some e => ⟨c, some e, false, false⟩
  | none =>
    if c.process.isSome then
      ⟨c, some (Err.msg "exec: already started"), false, false⟩
    else if !c.hasExitCodeChan then
      ⟨c, some (Err.msg "cmd missing exitCode channel"), false, false⟩
    else if c.hasCtx && !c.hasCtxErrChan then
      ⟨c, some (Err.msg "cmd missing ctxErr channel"), false, false⟩
    else if c.hasCtx && ctxDone then
      ⟨c, some Err.ctxCanceled, false, false⟩
    else
      let c1 := { c with process := some pid }
      match findHandler mux c1 with
      | none => ⟨{ c1 with startErr := some (Err.msg "exit status 1") },
                 none, false, false⟩
      | some _ => ⟨c1, none, true, c1.hasCtx⟩

/-- The FuncExec registry data the resolver needs: the binary
allow-list. -/
structure FuncExec where
  bins : List String
deriving DecidableEq, Repr

/-- The bins defaulting performed by NewFuncExec: if no bins were
specified a wildcard matcher is added so everything is found. -/
def NewFuncExecBins (bins : List String) : List String :=
  if bins.isEmpty then ["*"] else bins

/-- FuncExec.LookPath: a name containing a slash must match a
registered bin exactly (or a wildcard entry exists); a bare name is
matched against filepath.Base of each bin, first match returning that
bin, with the bare name itself as wildcard fallback. -/
def FuncExec.LookPath (e : FuncExec) (file : String) : Except Err String :=
  let hasWildcard := e.bins.contains "*"
  if file.toList.contains '/' then
    if e.bins.contains file then .ok file
    else if hasWildcard then .ok file
    else .error (Err.noSuchPath file)
  else
    match e.bins.find? (fun p => filepathBase p == file) with
    | some p => .ok p
    | none =>
      if hasWildcard then .ok file
      else .error (Err.notFoundInPath file)

/-- Go strings.SplitN(e, "=", 2) followed by the name/value extraction
in SetEnv: the name is everything before the first "=", the value is
everything after it (empty when there is no "="). -/
def splitEnvEntry (s : String) : String × String :=
  let cs := s.toList
  let name := cs.takeWhile (fun c => c ≠ '=')
  match cs.dropWhile (fun c => c ≠ '=') with
  | [] => (String.mk name, "")
  | _ :: tail => (String.mk name, String.mk tail)

/-- Go map assignment m[k] = v on a map modelled as an association
list: overwrite in place if the key is present, else append. -/
def mapInsert (m : List (String × String)) (k v : String) :
    List (String × String) :=
  if m.any (fun p => p.1 == k) then
    m.map (fun p => if p.1 == k then (k, v) else p)
  else
    m ++ [(k, v)]

/-- Go map lookup on the association-list model. -/
def mapLookup (m : List (String × String)) (k : String) : Option String :=
  (m.find? (fun p => p.1 == k)).map (fun p => p.2)

/-- FuncCmd.SetEnv: an empty list is a no-op; otherwise the (possibly
freshly allocated) env map receives each entry split at its first
"=". -/
def FuncCmd.SetEnv (c : FuncCmd) (env : List String) : FuncCmd :=
  if env.length = 0 then c
  else
    let m0 := c.env.getD []
    let m := env.foldl
      (fun m e =>
        let nv := splitEnvEntry e
        mapInsert m nv.1 nv.2) m0
    { c with env := some m }

/-- Executable lexicographic comparison of character lists, the order
Go's sort.Strings uses (byte order on UTF-8 equals code-point
order). -/
def charListLe : List Char → List Char → Bool
  | [], _ => true
  | _ :: _, [] => false
  | a :: as, b :: bs => if a = b then charListLe as bs else decide (a < b)

/-- Executable lexicographic order on strings. -/
def strLe (a b : String) : Bool := charListLe a.toList b.toList

/-- fmtEnv: renders each map entry as NAME=VALUE and sorts the list
(sort.Strings, byte-lexicographic; modelled by insertion sort, which
produces the same list: the sorted permutation of a multiset is
unique).  A nil map renders as the empty list. -/
def fmtEnv (env : Option (List (String × String))) : List String :=
  match env with
  | none => []
  | some m =>
    List.insertionSort (fun a b => strLe a b = true)
      (m.map (fun p => p.1 ++ "=" ++ p.2))

/-- FuncCmd.Env: the formatted env map. -/
def FuncCmd.Env (c : FuncCmd) : List String := fmtEnv c.env

/-!
The cancellation race (Start's watcher goroutine racing Wait).  The
watcher runs, after the ctx.Done branch of its select is chosen:
c.lock() — three independent field updates — and then the send on
ctxErr; after the done branch: only the send of nil on ctxErr.  Wait's
receive on ctxErr is the only action of the reader we track.  Each
constructor of `RaceStep` is one atomic action of this interleaving.
-/

/-- Program counter of the watcher goroutine. -/
inductive WatcherPC where
  | atSelect
  | lockStdinStep
  | lockStdoutStep
  | lockStderrStep
  | publishCancel
  | publishNil
  | finished
deriving DecidableEq, Repr

/-- A state of the cancellation race: the command (whose channels the
watcher locks), the watcher's program counter, the content of the
capacity-one ctxErr channel, what Wait's receive has obtained (none =
not yet received), and whether the deadline / the handler's completion
signal have fired. -/
structure RaceState where
  cmd : FuncCmd
  pc : WatcherPC
  ctxErrSlot : Option (Option Err)
  waitGot : Option (Option Err)
  deadlineFired : Bool
  handlerDone : Bool
deriving DecidableEq, Repr

/-- One atomic step of the race between the watcher goroutine and the
waiting caller. -/
inductive RaceStep : RaceState → RaceState → Prop where
  | fire (s : RaceState) :
      RaceStep s { s with deadlineFired := true }
  | handlerFinish (s : RaceState) :
      RaceStep s { s with handlerDone := true }
  | selectCancel (s : RaceState) (h : s.pc = .atSelect)
      (hd : s.deadlineFired = true) :
      RaceStep s { s with pc := .lockStdinStep }
  | selectDone (s : RaceState) (h : s.pc = .atSelect)
      (hd : s.handlerDone = true) :
      RaceStep s { s with pc := .publishNil }
  | doLockStdin (s : RaceState) (h : s.pc = .lockStdinStep) :
      RaceStep s { s with pc := .lockStdoutStep,
                          cmd := { s.cmd with stdin := lockChanRead s.cmd.stdin } }
  | doLockStdout (s : RaceState) (h : s.pc = .lockStdoutStep) :
      RaceStep s { s with pc := .lockStderrStep,
                          cmd := { s.cmd with stdout := lockChanWrite s.cmd.stdout } }
  | doLockStderr (s : RaceState) (h : s.pc = .lockStderrStep) :
      RaceStep s { s with pc := .publishCancel,
                          cmd := { s.cmd with stderr := lockChanWrite s.cmd.stderr } }
  | publishCancelStep (s : RaceState) (h : s.pc = .publishCancel)
      (hslot : s.ctxErrSlot = none) :
      RaceStep s { s with pc := .finished,
                          ctxErrSlot := some (some Err.ctxCanceled) }
  | publishNilStep (s : RaceState) (h : s.pc = .publishNil)
      (hslot : s.ctxErrSlot = none) :
      RaceStep s { s with pc := .finished, ctxErrSlot := some none }
  | waitRecv (s : RaceState) (v : Option Err) (h : s.ctxErrSlot = some v)
      (hw : s.waitGot = none) :
      RaceStep s { s with ctxErrSlot := none, waitGot := some v }

/-- The initial race state for a started command `c`: watcher at its
select, empty hand-off channel, Wait not yet completed. -/
def RaceInit (c : FuncCmd) : RaceState :=
  { cmd := c, pc := .atSelect, ctxErrSlot := none, waitGot := none
    deadlineFired := false, handlerDone := false }

/-- Reachability from the initial state of command `c`. -/
def RaceReachable (c : FuncCmd) (s : RaceState) : Prop :=
  Relation.ReflTransGen RaceStep (RaceInit c) s

/-- No cancellation (non-nil) error is visible anywhere: neither sitting
in the ctxErr channel nor already received by Wait. -/
def NoCancelVisible (s : RaceState) : Prop :=
  (∀ e, s.ctxErrSlot ≠ some (some e)) ∧ (∀ e, s.waitGot ≠ some (some e))

/-- A concrete command with all three channels as unlocked buffers, for
exercising the cancellation race. -/
def raceDemoCmd : FuncCmd :=
  { mkCmd "t" ["t"] with
      hasCtx := true
      process := some 7
      stdin := .lockBuf false false
      stdout := .lockBuf false false
      stderr := .lockBuf false false }

/-- The state of the race demo after the deadline fires, the watcher
locks all three channels and publishes the cancellation error, and
Wait receives it. -/
def raceDemoFinal : RaceState :=
  { cmd := raceDemoCmd.lock, pc := .finished, ctxErrSlot := none
    waitGot := some (some Err.ctxCanceled), deadlineFired := true
    handlerDone := false }

/-- Inductive invariant of the race, relating the watcher's program
counter to how far the locking has progressed and to whether a
cancellation error can be visible. -/
def RaceInv (c0 : FuncCmd) (s : RaceState) : Prop :=
  match s.pc with
  | .atSelect => s.cmd = c0 ∧ NoCancelVisible s
  | .lockStdinStep => s.cmd = c0 ∧ NoCancelVisible s
  | .lockStdoutStep =>
      s.cmd = { c0 with stdin := lockChanRead c0.stdin } ∧ NoCancelVisible s
  | .lockStderrStep =>
      s.cmd = { c0 with stdin := lockChanRead c0.stdin,
                        stdout := lockChanWrite c0.stdout } ∧ NoCancelVisible s
  | .publishCancel => s.cmd = c0.lock ∧ NoCancelVisible s
  | .publishNil => s.cmd = c0 ∧ NoCancelVisible s
  | .finished => s.cmd = c0.lock ∨ (s.cmd = c0 ∧ NoCancelVisible s)

/-- Sanity check of the filepath.Base embedding against Go's documented
behaviour on representative inputs. -/
theorem filepathBase_spot_checks :
    filepathBase "/path/to/test" = "test" ∧ filepathBase "test" = "test" ∧
    filepathBase "" = "." ∧ filepathBase "///" = "/" ∧
    filepathBase "/a/b/" = "b" := by
  refine ⟨by decide, by decide, by decide, by decide, by decide⟩

/-- C1: for a started command (startErr absent, handle assigned, not yet
waited) with no cancellation deadline, or whose deadline did not fire
(the ctxErr receive delivers nil), Wait translates a non-zero handler
status n into the error "exit status n" and a zero status into success.
The early branches are not taken, so the result comes from the exitCode
receive alone. -/
theorem wait_translates_exit_status (c : FuncCmd) (interrupt : Option Err)
    (n : Int) (h1 : c.startErr = none) (h2 : c.process.isSome = true)
    (h3 : c.processState = false)
    (h4 : c.hasCtx = false ∨ interrupt = none) :
    (c.Wait interrupt n).2 =
      if n = 0 then none
      else some (Err.msg ("exit status " ++ toString n)) := by
  have h2' : ¬ c.process = none := by
    intro hn
    rw [hn] at h2
    simp at h2
  by_cases hn : n = 0 <;>
    rcases h4 with h4 | h4 <;>
      simp [FuncCmd.Wait, h1, h2', h3, h4, hn]

/-- Witness for C1 at a concrete started command and status 2. -/
theorem wait_translates_exit_status_witness :
    ({ mkCmd "t" ["t"] with process := some 7 } : FuncCmd).startErr = none ∧
    (({ mkCmd "t" ["t"] with process := some 7 } : FuncCmd).Wait none 2).2 =
      (if (2 : Int) = 0 then none
       else some (Err.msg ("exit status " ++ toString (2 : Int)))) :=
  ⟨rfl, wait_translates_exit_status _ none 2 rfl rfl rfl (Or.inl rfl)⟩

/-- C4: Wait fails immediately (the result does not depend on either
receive value, which is the embedding of "without blocking") when a
start-time failure was recorded, when the command was never started,
or when Wait was already called; and after a first successful Wait the
recorded process-state artifact is preserved by a second call, which
returns the "already called" error with the state unchanged. -/
theorem wait_misuse_errors (c : FuncCmd) (interrupt : Option Err) (n : Int) :
    (∀ e, c.startErr = some e → c.Wait interrupt n = (c, some e)) ∧
    (c.startErr = none → c.process = none →
      c.Wait interrupt n = (c, some (Err.msg "exec: not started"))) ∧
    (c.startErr = none → c.process ≠ none → c.processState = true →
      c.Wait interrupt n = (c, some (Err.msg "exec: Wait was already called"))) ∧
    (c.startErr = none → c.process ≠ none → c.processState = false →
      ((c.Wait interrupt n).1.processState = true ∧
        ∀ i2 n2, (c.Wait interrupt n).1.Wait i2 n2 =
          ((c.Wait interrupt n).1,
           some (Err.msg "exec: Wait was already called")))) := by
  refine ⟨?_, ?_, ?_, ?_⟩
  · intro e he
    unfold FuncCmd.Wait
    rw [he]
  · intro hs hp
    unfold FuncCmd.Wait
    rw [hs, hp]
    simp
  · intro hs hp hps
    unfold FuncCmd.Wait
    rw [hs]
    simp [hp, hps]
  · intro hs hp hps
    have hstate : (c.Wait interrupt n).1 = { c with processState := true } := by
      unfold FuncCmd.Wait
      rw [hs]
      simp only [if_neg hp, hps, Bool.false_eq_true, if_false]
      split <;> (try split) <;> (try split) <;> rfl
    refine ⟨by rw [hstate], ?_⟩
    intro i2 n2
    rw [hstate]
    unfold FuncCmd.Wait
    simp [hs, hp]

/-- Witness for C4 on a command whose startErr holds a failure. -/
theorem wait_misuse_errors_witness :
    ({ mkCmd "t" ["t"] with startErr := some (Err.msg "exit status 1") }
        : FuncCmd).startErr = some (Err.msg "exit status 1") ∧
    ({ mkCmd "t" ["t"] with startErr := some (Err.msg "exit status 1") }
        : FuncCmd).Wait none 0 =
      ({ mkCmd "t" ["t"] with startErr := some (Err.msg "exit status 1") },
       some (Err.msg "exit status 1")) :=
  ⟨rfl,
   (wait_misuse_errors _ none 0).1 (Err.msg "exit status 1") rfl⟩

/-- C9: the lock step is total (a total Lean function embeds the Go
comma-ok type assertions, which cannot panic): on each of the three
channels it sets the corresponding lock flag exactly when the channel
holds a lockableBuffer, leaves any other channel value untouched, and
changes no other field of the command. -/
theorem lock_total_and_selective (c : FuncCmd) :
    (c.stdin.isLockBuf = false → (c.lock).stdin = c.stdin) ∧
    (c.stdout.isLockBuf = false → (c.lock).stdout = c.stdout) ∧
    (c.stderr.isLockBuf = false → (c.lock).stderr = c.stderr) ∧
    (∀ r w, c.stdin = .lockBuf r w → (c.lock).stdin = .lockBuf true w) ∧
    (∀ r w, c.stdout = .lockBuf r w → (c.lock).stdout = .lockBuf r true) ∧
    (∀ r w, c.stderr = .lockBuf r w → (c.lock).stderr = .lockBuf r true) ∧
    ((c.lock).path = c.path ∧ (c.lock).args = c.args ∧
      (c.lock).env = c.env ∧ (c.lock).dir = c.dir ∧
      (c.lock).process = c.process ∧
      (c.lock).processState = c.processState ∧
      (c.lock).hasCtx = c.hasCtx ∧ (c.lock).err = c.err ∧
      (c.lock).startErr = c.startErr) := by
  refine ⟨?_, ?_, ?_, ?_, ?_, ?_, ?_⟩
  · intro h
    cases hch : c.stdin with
    | lockBuf r w => rw [hch] at h; simp [IOChan.isLockBuf] at h
    | nilChan => simp [FuncCmd.lock, lockChanRead, hch]
    | other t => simp [FuncCmd.lock, lockChanRead, hch]
  · intro h
    cases hch : c.stdout with
    | lockBuf r w => rw [hch] at h; simp [IOChan.isLockBuf] at h
    | nilChan => simp [FuncCmd.lock, lockChanWrite, hch]
    | other t => simp [FuncCmd.lock, lockChanWrite, hch]
  · intro h
    cases hch : c.stderr with
    | lockBuf r w => rw [hch] at h; simp [IOChan.isLockBuf] at h
    | nilChan => simp [FuncCmd.lock, lockChanWrite, hch]
    | other t => simp [FuncCmd.lock, lockChanWrite, hch]
  · intro r w h
    simp [FuncCmd.lock, h, lockChanRead]
  · intro r w h
    simp [FuncCmd.lock, h, lockChanWrite]
  · intro r w h
    simp [FuncCmd.lock, h, lockChanWrite]
  · exact ⟨rfl, rfl, rfl, rfl, rfl, rfl, rfl, rfl, rfl⟩

/-- Witness for C9 on a command with a non-buffer stdin, an unlocked
buffer stdout and a nil stderr. -/
theorem lock_total_and_selective_witness :
    (({ mkCmd "t" ["t"] with
        stdin := .other 0
        stdout := .lockBuf false false } : FuncCmd).lock).stdin
        = IOChan.other 0 ∧
    (({ mkCmd "t" ["t"] with
        stdin := .other 0
        stdout := .lockBuf false false } : FuncCmd).lock).stdout
        = IOChan.lockBuf false true ∧
    (({ mkCmd "t" ["t"] with
        stdin := .other 0
        stdout := .lockBuf false false } : FuncCmd).lock).stderr
        = IOChan.nilChan :=
  ⟨(lock_total_and_selective _).1 rfl,
   (lock_total_and_selective _).2.2.2.2.1 false false rfl,
   (lock_total_and_selective _).2.2.1 rfl⟩

/-- C10: on a command whose startErr records the no-handler failure
"exit status 1", every Wait call returns exactly that failure with the
state unchanged — so the process-state artifact is never set and the
"already waited" error can never be observed, no matter how many times
Wait is called. -/
theorem wait_after_start_failure_stable (c : FuncCmd)
    (interrupt : Option Err) (n : Int)
    (h : c.startErr = some (Err.msg "exit status 1")) :
    c.Wait interrupt n = (c, some (Err.msg "exit status 1")) ∧
    (c.Wait interrupt n).1.processState = c.processState ∧
    (c.Wait interrupt n).2 ≠ some (Err.msg "exec: Wait was already called") := by
  have hw : c.Wait interrupt n = (c, some (Err.msg "exit status 1")) := by
    unfold FuncCmd.Wait
    rw [h]
  refine ⟨hw, by rw [hw], by rw [hw]; simp⟩

/-- Witness for C10 on a concrete command with the recorded failure. -/
theorem wait_after_start_failure_stable_witness :
    ({ mkCmd "t" ["t"] with startErr := some (Err.msg "exit status 1") }
        : FuncCmd).Wait (some Err.ctxCanceled) 5 =
      ({ mkCmd "t" ["t"] with startErr := some (Err.msg "exit status 1") },
       some (Err.msg "exit status 1")) :=
  (wait_after_start_failure_stable _ (some Err.ctxCanceled) 5 rfl).1

/-- Pattern matching only inspects the path and argument fields, so the
handle assignment Start performs just before the router lookup does not
affect the lookup's outcome. -/
theorem patternMatch_ignores_process (p : Pattern) (c : FuncCmd)
    (pid : Nat) :
    p.Match { c with process := some pid } = p.Match c := by
  cases p <;> rfl

/-- findFirstMatch is likewise insensitive to the process field. -/
theorem findFirstMatch_ignores_process {H : Type}
    (l : List (Pattern × H)) (c : FuncCmd) (pid : Nat) :
    findFirstMatch l { c with process := some pid } = findFirstMatch l c := by
  induction l with
  | nil => rfl
  | cons ph rest ih =>
    simp [findFirstMatch, patternMatch_ignores_process, ih]

/-- findHandler is insensitive to the process field. -/
theorem findHandler_ignores_process {H : Type} (mux : Option (Mux H))
    (c : FuncCmd) (pid : Nat) :
    findHandler mux { c with process := some pid } = findHandler mux c := by
  cases mux with
  | none => rfl
  | some m => simp [findHandler, findFirstMatch_ignores_process]

/-- C2: on a startable command (non-empty path, no recorded resolution
error, not yet started, hand-off channels present) whose router lookup
finds no handler, Start returns no error, records the terminal
"exit status 1" failure, launches neither the handler task nor the
watcher task, and every subsequent Wait returns the recorded failure
with the state unchanged (independent of both receive values, i.e.
without blocking). -/
theorem start_no_handler_records_failure {H : Type} (c : FuncCmd)
    (mux : Option (Mux H)) (pid : Nat)
    (hpath : c.path ≠ "") (herr : c.err = none) (hproc : c.process = none)
    (hexit : c.hasExitCodeChan = true)
    (hctx : c.hasCtx = true → c.hasCtxErrChan = true)
    (hfind : findHandler mux c = none) :
    (c.Start mux false pid).ret = none ∧
    (c.Start mux false pid).handlerLaunched = false ∧
    (c.Start mux false pid).watcherLaunched = false ∧
    (c.Start mux false pid).cmd.startErr = some (Err.msg "exit status 1") ∧
    (∀ interrupt n, (c.Start mux false pid).cmd.Wait interrupt n =
      ((c.Start mux false pid).cmd, some (Err.msg "exit status 1"))) := by
  have hskip : ¬ (c.path = "" ∧ c.err = none) := fun h => hpath h.1
  have hfind' : findHandler mux { c with process := some pid } = none := by
    rw [findHandler_ignores_process, hfind]
  have hnoctx : (c.hasCtx && !c.hasCtxErrChan) = false := by
    cases hcc : c.hasCtx with
    | false => rfl
    | true => simp [hctx hcc]
  have hres : c.Start mux false pid =
      ⟨{ c with process := some pid, startErr := some (Err.msg "exit status 1") },
       none, false, false⟩ := by
    rw [herr, hexit] at hfind'
    unfold FuncCmd.Start
    simp only [if_neg hskip]
    rw [herr]
    simp only [hproc, Option.isSome_none, Bool.false_eq_true, if_false,
      hexit, Bool.not_true, Bool.and_false, hnoctx, if_false]
    rw [hfind']
  rw [hres]
  refine ⟨rfl, rfl, rfl, rfl, ?_⟩
  intro interrupt n
  unfold FuncCmd.Wait
  rfl

/-- Witness for C2: an empty mux finds no handler for a fresh command. -/
theorem start_no_handler_records_failure_witness :
    ((mkCmd "t" ["t"]).Start (some (NewMux Unit)) false 3).ret = none ∧
    ((mkCmd "t" ["t"]).Start (some (NewMux Unit)) false 3).handlerLaunched
      = false ∧
    ((mkCmd "t" ["t"]).Start (some (NewMux Unit)) false 3).cmd.startErr
      = some (Err.msg "exit status 1") :=
  have h := start_no_handler_records_failure (mkCmd "t" ["t"])
    (some (NewMux Unit)) 3 (by decide) rfl rfl rfl (fun h => rfl) rfl
  ⟨h.1, h.2.1, h.2.2.2.1⟩

/-- C3 counterexample: the code compares filepath.Base of the pattern's
command string against the command's whole resolved path, not against
its base name.  For the claim's own example — bare pattern "test",
resolved path "/path/to/test" — the two base names agree yet neither
pattern variant matches. -/
theorem pattern_base_name_counterexample :
    filepathBase "test" = filepathBase "/path/to/test" ∧
    (Pattern.simple "test").Match
      (mkCmd "/path/to/test" ["test"]) = false ∧
    (Pattern.full "test" []).Match
      (mkCmd "/path/to/test" ["test"]) = false := by
  refine ⟨by decide, by decide, by decide⟩

/-- C3 amended: an exact-name pattern (no argument requirements)
matches a command iff the pattern string is the wildcard or the base
name of the pattern's command string equals the command's resolved
path taken in full, compared exactly and case-sensitively.  In
particular a bare pattern "test" matches resolved path "test" but not
"/path/to/test". -/
theorem pattern_match_amended (s : String) (args : List String)
    (c : FuncCmd) (hargs : args = []) :
    ((Pattern.simple s).Match c = true ↔
      (s = "*" ∨ filepathBase s = c.path)) ∧
    ((Pattern.full s args).Match c = true ↔
      (s = "*" ∨ filepathBase s = c.path)) := by
  subst hargs
  constructor <;> simp [Pattern.Match]

/-- Witness for C3's amended statement at a concrete pattern and
command. -/
theorem pattern_match_amended_witness :
    ((Pattern.simple "test").Match (mkCmd "test" ["test"]) = true ↔
      ("test" = "*" ∨ filepathBase "test" = (mkCmd "test" ["test"]).path)) ∧
    ((Pattern.full "test" []).Match (mkCmd "test" ["test"]) = true ↔
      ("test" = "*" ∨ filepathBase "test" = (mkCmd "test" ["test"]).path)) :=
  pattern_match_amended "test" [] (mkCmd "test" ["test"]) rfl

/-- The base-name scan of LookPath returns the first registered bin
whose base name matches. -/
theorem find?_base_first (l1 l2 : List String) (p file : String)
    (hp : filepathBase p = file) (hl1 : ∀ q ∈ l1, filepathBase q ≠ file) :
    (l1 ++ p :: l2).find? (fun q => filepathBase q == file) = some p := by
  induction l1 with
  | nil => simp [List.find?, hp]
  | cons a rest ih =>
    have ha : (filepathBase a == file) = false := by
      simp [hl1 a (List.mem_cons_self a rest)]
    simp only [List.cons_append, List.find?, ha]
    exact ih (fun q hq => hl1 q (List.mem_cons_of_mem _ hq))

/-- C8: path resolution against the binary allow-list.  A name with a
separator resolves (to itself) exactly when it is registered verbatim
or a wildcard entry exists, and otherwise fails with the "no such
file" error; a bare name resolves to the first registered bin whose
base name equals it, falls back to the bare name itself under a
wildcard entry, and otherwise fails with the "not found in search
path" error.  The last two conjuncts are the claim's concrete
examples. -/
theorem lookPath_resolution (e : FuncExec) (file : String) :
    (file.toList.contains '/' = true →
      ((file ∈ e.bins ∨ "*" ∈ e.bins) → e.LookPath file = .ok file) ∧
      (file ∉ e.bins → "*" ∉ e.bins →
        e.LookPath file = .error (Err.noSuchPath file))) ∧
    (file.toList.contains '/' = false →
      (∀ l1 p l2, e.bins = l1 ++ p :: l2 → filepathBase p = file →
        (∀ q ∈ l1, filepathBase q ≠ file) → e.LookPath file = .ok p) ∧
      ((∀ q ∈ e.bins, filepathBase q ≠ file) →
        ("*" ∈ e.bins → e.LookPath file = .ok file) ∧
        ("*" ∉ e.bins →
          e.LookPath file = .error (Err.notFoundInPath file)))) ∧
    (FuncExec.mk ["/usr/bin/git"]).LookPath "git" = .ok "/usr/bin/git" ∧
    (FuncExec.mk ["/usr/bin/git"]).LookPath "/usr/bin/missing"
      = .error (Err.noSuchPath "/usr/bin/missing") := by
  refine ⟨?_, ?_, rfl, rfl⟩
  · intro hslash
    have hc : '/' ∈ file.data := List.elem_iff.mp hslash
    constructor
    · rintro (hmem | hwild)
      · simp [FuncExec.LookPath, hc, hmem]
      · by_cases hmem : file ∈ e.bins <;>
          simp [FuncExec.LookPath, hc, hmem, hwild]
    · intro hmem hwild
      simp [FuncExec.LookPath, hc, hmem, hwild]
  · intro hslash
    have hc : '/' ∉ file.data := by
      intro h
      have hcontains : file.toList.contains '/' = true := List.elem_iff.mpr h
      rw [hcontains] at hslash
      exact absurd hslash (by decide)
    constructor
    · intro l1 p l2 hbins hp hl1
      simp only [FuncExec.LookPath, hbins]
      rw [if_neg (show ¬ (file.toList.contains '/' = true) from
        fun hcon => hc (List.elem_iff.mp hcon))]
      rw [find?_base_first l1 l2 p file hp hl1]
    · intro hnone
      have hfind : e.bins.find? (fun q => filepathBase q == file) = none := by
        rw [List.find?_eq_none]
        intro q hq
        simp [hnone q hq]
      constructor
      · intro hwild
        simp [FuncExec.LookPath, hc, hfind, hwild]
      · intro hwild
        simp [FuncExec.LookPath, hc, hfind, hwild]

/-- Witness for C8 at the claim's concrete allow-list, exercising both
the bare-name first-match rule and the separator rule. -/
theorem lookPath_resolution_witness :
    (FuncExec.mk ["/usr/bin/git"]).LookPath "git" = .ok "/usr/bin/git" ∧
    (FuncExec.mk ["/usr/bin/git"]).LookPath "/usr/bin/missing"
      = .error (Err.noSuchPath "/usr/bin/missing") ∧
    (FuncExec.mk ["/usr/bin/git"]).LookPath "/usr/bin/git"
      = .ok "/usr/bin/git" :=
  ⟨((lookPath_resolution (FuncExec.mk ["/usr/bin/git"]) "git").2.1
      rfl).1 [] "/usr/bin/git" [] rfl rfl (by simp),
   ((lookPath_resolution (FuncExec.mk ["/usr/bin/git"])
      "/usr/bin/missing").1 rfl).2 (by decide) (by decide),
   ((lookPath_resolution (FuncExec.mk ["/usr/bin/git"])
      "/usr/bin/git").1 rfl).1 (Or.inl (by decide))⟩

/-- A matcher list on which no pattern matches yields no handler. -/
theorem findFirstMatch_none {H : Type} (l : List (Pattern × H))
    (c : FuncCmd) (h : ∀ ph ∈ l, ph.1.Match c = false) :
    findFirstMatch l c = none := by
  induction l with
  | nil => rfl
  | cons ph rest ih =>
    simp only [findFirstMatch, h ph (List.mem_cons_self ph rest),
      Bool.false_eq_true, if_false]
    exact ih (fun q hq => h q (List.mem_cons_of_mem _ hq))

/-- The first matching registration in list order wins. -/
theorem findFirstMatch_first {H : Type} (l1 l2 : List (Pattern × H))
    (p : Pattern) (f : H) (c : FuncCmd)
    (h1 : ∀ ph ∈ l1, ph.1.Match c = false) (hp : p.Match c = true) :
    findFirstMatch (l1 ++ (p, f) :: l2) c = some f := by
  induction l1 with
  | nil => simp [findFirstMatch, hp]
  | cons ph rest ih =>
    simp only [List.cons_append, findFirstMatch,
      h1 ph (List.mem_cons_self ph rest), Bool.false_eq_true, if_false]
    exact ih (fun q hq => h1 q (List.mem_cons_of_mem _ hq))

/-- The NewFuncMapMux fold over a wildcard-free segment of the map
appends one exact-name matcher per entry, in iteration order, and
leaves the held-back wildcard handler unchanged. -/
theorem funcMapMux_foldl_no_star {H : Type} (fm : List (String × H))
    (hfm : ∀ kv ∈ fm, kv.1 ≠ "*") (acc : Mux H) (last : Option H) :
    fm.foldl
      (fun (acc : Mux H × Option H) kv =>
        if kv.1 == "*" then (acc.1, some kv.2)
        else (acc.1.HandleFunc (Pattern.simple kv.1) kv.2, acc.2))
      (acc, last)
      = (⟨acc.matchers ++ fm.map (fun kv => (Pattern.simple kv.1, kv.2))⟩,
         last) := by
  induction fm generalizing acc with
  | nil => simp
  | cons kv rest ih =>
    have hk : (kv.1 == "*") = false := by
      simp [hfm kv (List.mem_cons_self kv rest)]
    simp only [List.foldl_cons, hk, Bool.false_eq_true, if_false]
    rw [ih (fun q hq => hfm q (List.mem_cons_of_mem _ hq))]
    simp [Mux.HandleFunc]

/-- C6: router lookup returns the handler of the earliest-registered
matching pattern (insertion order is priority) and none when the
registration list is missing, empty, or exhausted without a match; and
NewFuncMapMux, for every iteration order of the name-keyed map, emits
the exact-name entries in iteration order and appends the
wildcard-keyed entry last (or, with no wildcard key, emits exactly the
exact-name entries), so a wildcard never shadows a specific name. -/
theorem mux_priority_and_wildcard_last {H : Type} :
    (∀ c : FuncCmd, findHandler (none : Option (Mux H)) c = none) ∧
    (∀ c : FuncCmd, findHandler (some (NewMux H)) c = none) ∧
    (∀ (m : Mux H) (c : FuncCmd),
      (∀ ph ∈ m.matchers, ph.1.Match c = false) →
      findHandler (some m) c = none) ∧
    (∀ (l1 l2 : List (Pattern × H)) (p : Pattern) (f : H) (c : FuncCmd),
      (∀ ph ∈ l1, ph.1.Match c = false) → p.Match c = true →
      findHandler (some ⟨l1 ++ (p, f) :: l2⟩) c = some f) ∧
    (∀ (u v : List (String × H)) (f : H),
      (∀ kv ∈ u, kv.1 ≠ "*") → (∀ kv ∈ v, kv.1 ≠ "*") →
      (NewFuncMapMux (u ++ ("*", f) :: v)).matchers
        = (u ++ v).map (fun kv => (Pattern.simple kv.1, kv.2))
          ++ [(Pattern.simple "*", f)]) ∧
    (∀ fm : List (String × H),
      (∀ kv ∈ fm, kv.1 ≠ "*") →
      (NewFuncMapMux fm).matchers
        = fm.map (fun kv => (Pattern.simple kv.1, kv.2))) := by
  refine ⟨fun c => rfl, fun c => rfl, ?_, ?_, ?_, ?_⟩
  · intro m c h
    simpa [findHandler] using findFirstMatch_none m.matchers c h
  · intro l1 l2 p f c h1 hp
    simpa [findHandler] using findFirstMatch_first l1 l2 p f c h1 hp
  · intro u v f hu hv
    unfold NewFuncMapMux
    rw [List.foldl_append]
    rw [funcMapMux_foldl_no_star u hu (NewMux H) none]
    simp only [List.foldl_cons, beq_self_eq_true, if_true]
    rw [funcMapMux_foldl_no_star v hv _ (some f)]
    simp [Mux.HandleFunc, NewMux]
  · intro fm hfm
    unfold NewFuncMapMux
    rw [funcMapMux_foldl_no_star fm hfm (NewMux H) none]
    simp [NewMux]

/-- Witness for C6: the map iteration order that visits the wildcard
key first still puts the wildcard matcher last. -/
theorem mux_priority_and_wildcard_last_witness :
    (NewFuncMapMux ([("*", 0), ("a", 1)] : List (String × Nat))).matchers
      = [(Pattern.simple "a", 1), (Pattern.simple "*", 0)] :=
  (mux_priority_and_wildcard_last (H := Nat)).2.2.2.2.1
    [] [("a", 1)] 0 (by simp) (by decide)

/-- The executable comparison charListLe decides the lexicographic
order on character lists. -/
theorem charListLe_iff (as bs : List Char) :
    charListLe as bs = true ↔
      ¬ List.Lex (fun a b : Char => a < b) bs as := by
  induction as generalizing bs with
  | nil =>
    simp only [charListLe, true_iff]
    exact List.Lex.not_nil_right (fun a b : Char => a < b) bs
  | cons a as ih =>
    cases bs with
    | nil =>
      simp only [charListLe, Bool.false_eq_true, false_iff, not_not]
      exact List.Lex.nil
    | cons b bs =>
      by_cases hab : a = b
      · subst hab
        have hstep : charListLe (a :: as) (a :: bs) = charListLe as bs := by
          simp [charListLe]
        rw [hstep, ih bs]
        constructor
        · intro h hlex
          exact h (List.Lex.cons_iff.mp hlex)
        · intro h hlex
          exact h (List.Lex.cons hlex)
      · simp only [charListLe, if_neg hab, decide_eq_true_eq]
        constructor
        · intro hlt hlex
          cases hlex with
          | cons h => exact hab rfl
          | rel h => exact (lt_asymm h) hlt
        · intro h
          rcases lt_trichotomy a b with hlt | heq | hgt
          · exact hlt
          · exact absurd heq hab
          · exact absurd (List.Lex.rel hgt) h

/-- strLe decides the lexicographic order on strings. -/
theorem strLe_iff_le (a b : String) : strLe a b = true ↔ a ≤ b := by
  rw [String.le_iff_toList_le, ← not_lt]
  exact charListLe_iff a.toList b.toList

/-- The environment rendering is always sorted in the lexicographic
string order. -/
theorem fmtEnv_sorted (env : Option (List (String × String))) :
    List.Sorted (fun a b : String => a ≤ b) (fmtEnv env) := by
  cases env with
  | none => simp [fmtEnv]
  | some m =>
    have htot : IsTotal String (fun a b => strLe a b = true) := ⟨by
      intro a b
      rcases le_total a b with h | h
      · exact Or.inl ((strLe_iff_le a b).mpr h)
      · exact Or.inr ((strLe_iff_le b a).mpr h)⟩
    have htrans : IsTrans String (fun a b => strLe a b = true) := ⟨by
      intro a b c hab hbc
      exact (strLe_iff_le a c).mpr
        (le_trans ((strLe_iff_le a b).mp hab) ((strLe_iff_le b c).mp hbc))⟩
    have hs := @List.sorted_insertionSort String
      (fun a b => strLe a b = true) _ htot htrans
      (m.map (fun p => p.1 ++ "=" ++ p.2))
    exact List.Pairwise.imp (fun h => (strLe_iff_le _ _).mp h) hs

/-- Go map assignment does not change the key set when the key is
present, and appends the key when absent. -/
theorem mapInsert_keys (m : List (String × String)) (k v : String) :
    (mapInsert m k v).map Prod.fst =
      if m.any (fun p => p.1 == k) then m.map Prod.fst
      else m.map Prod.fst ++ [k] := by
  unfold mapInsert
  split
  · rw [List.map_map]
    apply List.map_congr_left
    intro p hp
    by_cases hpk : p.1 = k
    · simp [Function.comp, hpk]
    · simp [Function.comp, hpk]
  · simp

/-- Go map assignment preserves distinctness of keys. -/
theorem mapInsert_keys_nodup (m : List (String × String)) (k v : String)
    (h : (m.map Prod.fst).Nodup) :
    ((mapInsert m k v).map Prod.fst).Nodup := by
  rw [mapInsert_keys]
  by_cases hany : m.any (fun p => p.1 == k) = true
  · rw [if_pos hany]
    exact h
  · rw [if_neg hany]
    have hk : k ∉ m.map Prod.fst := by
      intro hin
      obtain ⟨p, hp, hpk⟩ := List.mem_map.mp hin
      exact hany (List.any_eq_true.mpr ⟨p, hp, by simp [hpk]⟩)
    simp [List.nodup_append, h, hk]

/-- The SetEnv fold preserves distinctness of keys. -/
theorem setEnv_foldl_nodup (env : List String)
    (m0 : List (String × String)) (h : (m0.map Prod.fst).Nodup) :
    ((env.foldl
        (fun m e =>
          let nv := splitEnvEntry e
          mapInsert m nv.1 nv.2) m0).map Prod.fst).Nodup := by
  induction env generalizing m0 with
  | nil => exact h
  | cons e rest ih => exact ih _ (mapInsert_keys_nodup _ _ _ h)

/-- C7: after SetEnv on a command with no prior overrides, reading the
environment back yields a list sorted lexicographically by the full
NAME=VALUE string over a map whose keys are distinct (deduplicated by
key, the last entry winning via map overwrite).  The two concrete
conjuncts are the claim's examples: an entry with no "=" sets the
empty value (rendered "NOEQ="), an entry "DOUBLE=one=1" keeps the full
remainder "one=1" as the value, and repeated keys collapse to the last
value, sorted. -/
theorem setEnv_env_render (env : List String) (c : FuncCmd)
    (h : c.env = none) :
    List.Sorted (fun a b : String => a ≤ b) ((c.SetEnv env).Env) ∧
    (∀ m, (c.SetEnv env).env = some m → (m.map Prod.fst).Nodup) ∧
    ((mkCmd "t" ["t"]).SetEnv ["NOEQ", "DOUBLE=one=1"]).Env
      = ["DOUBLE=one=1", "NOEQ="] ∧
    ((mkCmd "t" ["t"]).SetEnv ["B=2", "A=1", "A=3"]).Env
      = ["A=3", "B=2"] := by
  refine ⟨fmtEnv_sorted _, ?_, by decide, by decide⟩
  intro m hm
  unfold FuncCmd.SetEnv at hm
  by_cases hlen : env.length = 0
  · rw [if_pos hlen] at hm
    rw [h] at hm
    cases hm
  · rw [if_neg hlen] at hm
    simp only [h, Option.getD_none] at hm
    have hm' := Option.some.inj hm
    rw [← hm']
    exact setEnv_foldl_nodup env [] (by simp)

/-- Witness for C7 at a concrete command and override list. -/
theorem setEnv_env_render_witness :
    (mkCmd "t" ["t"]).env = none ∧
    List.Sorted (fun a b : String => a ≤ b)
      (((mkCmd "t" ["t"]).SetEnv ["NOEQ", "DOUBLE=one=1"]).Env) :=
  ⟨rfl,
   (setEnv_env_render ["NOEQ", "DOUBLE=one=1"] (mkCmd "t" ["t"]) rfl).1⟩

/-- The invariant holds in the initial race state. -/
theorem raceInv_init (c0 : FuncCmd) : RaceInv c0 (RaceInit c0) := by
  refine ⟨rfl, ?_, ?_⟩ <;> intro e <;> simp [RaceInit]

/-- The invariant is preserved by every step of the race. -/
theorem raceInv_step (c0 : FuncCmd) {s t : RaceState}
    (hst : RaceStep s t) (h : RaceInv c0 s) : RaceInv c0 t := by
  obtain ⟨cmd, pc, slot, got, df, hdl⟩ := s
  cases hst with
  | fire =>
    cases pc <;> exact h
  | handlerFinish =>
    cases pc <;> exact h
  | selectCancel hpc hd =>
    cases hpc
    exact h
  | selectDone hpc hd =>
    cases hpc
    exact h
  | doLockStdin hpc =>
    cases hpc
    exact ⟨by rw [h.1], h.2⟩
  | doLockStdout hpc =>
    cases hpc
    exact ⟨by rw [h.1], h.2⟩
  | doLockStderr hpc =>
    cases hpc
    exact ⟨by rw [h.1]; rfl, h.2⟩
  | publishCancelStep hpc hslot =>
    cases hpc
    exact Or.inl h.1
  | publishNilStep hpc hslot =>
    cases hpc
    exact Or.inr ⟨h.1, fun e => by simp, h.2.2⟩
  | waitRecv v hslot hgot =>
    simp only at hslot hgot
    subst hslot
    subst hgot
    cases pc with
    | finished =>
      rcases h with hl | ⟨hcmd, hs, hg⟩
      · exact Or.inl hl
      · refine Or.inr ⟨hcmd, fun e => by simp, fun e => ?_⟩
        have hv : v = none := by
          cases v with
          | none => rfl
          | some e2 => exact absurd rfl (hs e2)
        subst hv
        simp
    | atSelect =>
      obtain ⟨hcmd, hs, hg⟩ := h
      have hv : v = none := by
        cases v with
        | none => rfl
        | some e2 => exact absurd rfl (hs e2)
      subst hv
      exact ⟨hcmd, fun e => by simp, fun e => by simp⟩
    | lockStdinStep =>
      obtain ⟨hcmd, hs, hg⟩ := h
      have hv : v = none := by
        cases v with
        | none => rfl
        | some e2 => exact absurd rfl (hs e2)
      subst hv
      exact ⟨hcmd, fun e => by simp, fun e => by simp⟩
    | lockStdoutStep =>
      obtain ⟨hcmd, hs, hg⟩ := h
      have hv : v = none := by
        cases v with
        | none => rfl
        | some e2 => exact absurd rfl (hs e2)
      subst hv
      exact ⟨hcmd, fun e => by simp, fun e => by simp⟩
    | lockStderrStep =>
      obtain ⟨hcmd, hs, hg⟩ := h
      have hv : v = none := by
        cases v with
        | none => rfl
        | some e2 => exact absurd rfl (hs e2)
      subst hv
      exact ⟨hcmd, fun e => by simp, fun e => by simp⟩
    | publishCancel =>
      obtain ⟨hcmd, hs, hg⟩ := h
      have hv : v = none := by
        cases v with
        | none => rfl
        | some e2 => exact absurd rfl (hs e2)
      subst hv
      exact ⟨hcmd, fun e => by simp, fun e => by simp⟩
    | publishNil =>
      obtain ⟨hcmd, hs, hg⟩ := h
      have hv : v = none := by
        cases v with
        | none => rfl
        | some e2 => exact absurd rfl (hs e2)
      subst hv
      exact ⟨hcmd, fun e => by simp, fun e => by simp⟩

/-- The invariant holds in every reachable race state. -/
theorem raceInv_reachable (c0 : FuncCmd) (s : RaceState)
    (h : RaceReachable c0 s) : RaceInv c0 s := by
  induction h with
  | refl => exact raceInv_init c0
  | tail hab hbc ih => exact raceInv_step c0 hbc ih

/-- C5: in every reachable state of the cancellation race in which
Wait's receive on the hand-off queue has produced a (non-nil)
cancellation error, the watcher has already completed the full
irreversible lock of all three channels: the command equals its fully
locked form.  A cancellation result therefore can never be observed
before the channels are safe. -/
theorem cancel_published_only_after_lock (c0 : FuncCmd) (s : RaceState)
    (hs : RaceReachable c0 s) (e : Err)
    (hw : s.waitGot = some (some e)) : s.cmd = c0.lock := by
  have hinv := raceInv_reachable c0 s hs
  obtain ⟨cmd, pc, slot, got, df, hdl⟩ := s
  simp only at hw
  subst hw
  cases pc with
  | finished =>
    rcases hinv with hl | ⟨hcmd, hs2, hg⟩
    · exact hl
    · exact absurd rfl (hg e)
  | atSelect => exact absurd rfl (hinv.2.2 e)
  | lockStdinStep => exact absurd rfl (hinv.2.2 e)
  | lockStdoutStep => exact absurd rfl (hinv.2.2 e)
  | lockStderrStep => exact absurd rfl (hinv.2.2 e)
  | publishCancel => exact absurd rfl (hinv.2.2 e)
  | publishNil => exact absurd rfl (hinv.2.2 e)

/-- Witness for C5: the final state of a concrete full run of the race
is reachable, carries the cancellation error in waitGot, and its
command is the fully locked one. -/
theorem cancel_published_only_after_lock_witness :
    raceDemoFinal.cmd = raceDemoCmd.lock :=
  cancel_published_only_after_lock raceDemoCmd raceDemoFinal
    (by
      refine Relation.ReflTransGen.head (RaceStep.fire _) ?_
      refine Relation.ReflTransGen.head (RaceStep.selectCancel _ rfl rfl) ?_
      refine Relation.ReflTransGen.head (RaceStep.doLockStdin _ rfl) ?_
      refine Relation.ReflTransGen.head (RaceStep.doLockStdout _ rfl) ?_
      refine Relation.ReflTransGen.head (RaceStep.doLockStderr _ rfl) ?_
      refine Relation.ReflTransGen.head
        (RaceStep.publishCancelStep _ rfl rfl) ?_
      refine Relation.ReflTransGen.head
        (RaceStep.waitRecv _ (some Err.ctxCanceled) rfl rfl) ?_
      exact Relation.ReflTransGen.refl)
    Err.ctxCanceled rfl

end Puffin
